import Mathlib

set_option maxHeartbeats 1600000

/-!
Verification of the workspace-preparation subsystem of the executor
(`executor/app/core/workspace.py`, class `WorkspaceManager`).

Python strings are embedded as lists of characters (`PyStr`), filesystem
paths as lists of path components, and filesystem or subprocess effects as
explicit state passing plus operation traces.  Fallible operations return
`Except WsError`.
-/

/-- Characters of a Python string. -/
abbrev PyStr := List Char

/-- Embed a Lean string literal as a Python string. -/
def S (s : String) : PyStr := s.data

/-- Characters removed by Python `str.strip()` with no argument
(ASCII whitespace; the unicode whitespace characters are irrelevant to
this code base and are left out). -/
def pyIsSpace (c : Char) : Bool :=
  c == ' ' || c == '\t' || c == '\n' || c == '\r' || c == '\x0b' || c == '\x0c'

/-- Leading-whitespace removal, the left half of Python `str.strip()`. -/
def pyStripLeft (s : PyStr) : PyStr := s.dropWhile pyIsSpace

/-- Trailing-whitespace removal, the right half of Python `str.strip()`. -/
def pyStripRight (s : PyStr) : PyStr := (s.reverse.dropWhile pyIsSpace).reverse

/-- Model of Python `str.strip()`: remove leading and trailing whitespace. -/
def pyStrip (s : PyStr) : PyStr := pyStripRight (pyStripLeft s)

/-- Model of Python `str.lower()` (ASCII case folding). -/
def pyLower (s : PyStr) : PyStr := s.map Char.toLower

/-- Model of Python `str.split(sep)` for a one-character separator: full
split, keeping empty segments. -/
def splitSep (sep : Char) : List Char → List (List Char)
  | [] => [[]]
  | c :: rest =>
    if c = sep then [] :: splitSep sep rest
    else
      match splitSep sep rest with
      | [] => [[c]]
      | h :: t => (c :: h) :: t

/-- Model of `s.split(sep, 1)[0]`: the part before the first separator. -/
def splitFirst (sep : Char) : PyStr → PyStr
  | [] => []
  | c :: rest => if c = sep then [] else c :: splitFirst sep rest

/-- Model of Python `s.rstrip("/")`. -/
def rstripSlash (s : PyStr) : PyStr := (s.reverse.dropWhile (· == '/')).reverse

/-- Model of Python `str.splitlines()` for newline-separated text: a full
split on the newline character, except that one final trailing newline does
not produce a trailing empty line, and the empty string has no lines. -/
def pySplitlines (s : PyStr) : List PyStr :=
  if s = [] then []
  else
    match (splitSep '\n' s).getLast? with
    | some [] => (splitSep '\n' s).dropLast
    | _ => splitSep '\n' s

/-- Model of Python `"\n".join(xs)`. -/
def joinNl : List PyStr → PyStr
  | [] => []
  | [p] => p
  | p :: rest => p ++ '\n' :: joinNl rest

/-! Basic lemmas about the string primitives. -/

theorem dropWhile_idem (p : Char → Bool) (l : List Char) :
    (l.dropWhile p).dropWhile p = l.dropWhile p := by
  induction l with
  | nil => rfl
  | cons c t ih =>
    cases h : p c with
    | true => rw [List.dropWhile_cons_of_pos h, ih]
    | false =>
      have h2 : ¬ p c = true := by simp [h]
      rw [List.dropWhile_cons_of_neg h2, List.dropWhile_cons_of_neg h2]

theorem dropWhile_self_suffix (p : Char → Bool) (l : List Char) :
    ∃ a, a ++ l.dropWhile p = l := by
  induction l with
  | nil => exact ⟨[], rfl⟩
  | cons c t ih =>
    cases h : p c with
    | true =>
      obtain ⟨a, ha⟩ := ih
      exact ⟨c :: a, by rw [List.dropWhile_cons_of_pos h, List.cons_append, ha]⟩
    | false =>
      exact ⟨[], by rw [List.dropWhile_cons_of_neg (by simp [h]), List.nil_append]⟩

theorem mem_dropWhile_sub (p : Char → Bool) (l : List Char) (a : Char)
    (h : a ∈ l.dropWhile p) : a ∈ l := by
  obtain ⟨b, hb⟩ := dropWhile_self_suffix p l
  rw [← hb]
  exact List.mem_append_right b h

theorem dropWhile_eq_self_of_append (p : Char → Bool) (l t : List Char)
    (hm : (l ++ t).dropWhile p = l ++ t) : l.dropWhile p = l := by
  cases l with
  | nil => rfl
  | cons c l2 =>
    cases h : p c with
    | false => rw [List.dropWhile_cons_of_neg (by simp [h])]
    | true =>
      exfalso
      rw [List.cons_append, List.dropWhile_cons_of_pos h] at hm
      obtain ⟨a, ha⟩ := dropWhile_self_suffix p (l2 ++ t)
      have hlen := congrArg List.length hm
      have hlen2 := congrArg List.length ha
      simp only [List.length_cons, List.length_append] at hlen hlen2
      omega

theorem pyStripRight_idem (s : PyStr) : pyStripRight (pyStripRight s) = pyStripRight s := by
  unfold pyStripRight
  rw [List.reverse_reverse, dropWhile_idem]

theorem pyStripLeft_of_stripped (s : PyStr) (h : pyStripLeft s = s) :
    pyStripLeft (pyStripRight s) = pyStripRight s := by
  obtain ⟨a, ha⟩ := dropWhile_self_suffix pyIsSpace s.reverse
  have hs : pyStripRight s ++ a.reverse = s := by
    have := congrArg List.reverse ha
    rw [List.reverse_append] at this
    simpa [pyStripRight] using this
  unfold pyStripLeft at *
  apply dropWhile_eq_self_of_append pyIsSpace (pyStripRight s) a.reverse
  rw [hs, h]

theorem pyStrip_idem (s : PyStr) : pyStrip (pyStrip s) = pyStrip s := by
  unfold pyStrip
  rw [pyStripLeft_of_stripped (pyStripLeft s) (dropWhile_idem pyIsSpace s),
    pyStripRight_idem]

theorem mem_pyStrip_sub (s : PyStr) (a : Char) (h : a ∈ pyStrip s) : a ∈ s := by
  unfold pyStrip pyStripRight pyStripLeft at h
  rw [List.mem_reverse] at h
  have h2 := mem_dropWhile_sub _ _ _ h
  rw [List.mem_reverse] at h2
  exact mem_dropWhile_sub _ _ _ h2

theorem splitSep_ne_nil (sep : Char) (l : List Char) : splitSep sep l ≠ [] := by
  cases l with
  | nil => simp [splitSep]
  | cons c rest =>
    simp only [splitSep]
    split
    · simp
    · cases h : splitSep sep rest <;> simp

theorem mem_splitSep_not_sep (sep : Char) (l : List Char) (a : List Char)
    (h : a ∈ splitSep sep l) : sep ∉ a := by
  induction l generalizing a with
  | nil =>
    simp only [splitSep, List.mem_singleton] at h
    subst h
    simp
  | cons c rest ih =>
    simp only [splitSep] at h
    split at h
    · rcases List.mem_cons.mp h with h1 | h1
      · subst h1; simp
      · exact ih a h1
    · rename_i hc
      cases hs : splitSep sep rest with
      | nil => exact absurd hs (splitSep_ne_nil sep rest)
      | cons h0 t0 =>
        rw [hs] at h
        rcases List.mem_cons.mp h with h1 | h1
        · subst h1
          intro hmem
          rcases List.mem_cons.mp hmem with h2 | h2
          · exact hc h2.symm
          · exact ih h0 (by rw [hs]; exact List.mem_cons_self h0 t0) h2
        · exact ih a (by rw [hs]; exact List.mem_cons_of_mem h0 h1)

theorem splitSep_no_sep (sep : Char) (l : List Char) (h : sep ∉ l) :
    splitSep sep l = [l] := by
  induction l with
  | nil => rfl
  | cons c rest ih =>
    have hc : ¬ c = sep := fun hc => h (hc ▸ List.mem_cons_self c rest)
    have hrest : sep ∉ rest := fun hr => h (List.mem_cons_of_mem c hr)
    simp only [splitSep, if_neg hc, ih hrest]

theorem splitSep_cons_of_sep (sep : Char) (rest : List Char) :
    splitSep sep (sep :: rest) = [] :: splitSep sep rest := by
  simp [splitSep]

theorem splitSep_cons_of_ne (sep c : Char) (rest : List Char) (hc : ¬ c = sep)
    (h0 : List Char) (t0 : List (List Char)) (hs : splitSep sep rest = h0 :: t0) :
    splitSep sep (c :: rest) = (c :: h0) :: t0 := by
  simp [splitSep, hc, hs]

theorem splitSep_append_sep (sep : Char) (a b : List Char) :
    splitSep sep (a ++ sep :: b) = splitSep sep a ++ splitSep sep b := by
  induction a with
  | nil => simp [splitSep_cons_of_sep, splitSep]
  | cons c rest ih =>
    by_cases hc : c = sep
    · subst hc
      rw [List.cons_append, splitSep_cons_of_sep, splitSep_cons_of_sep, ih,
        List.cons_append]
    · cases hs : splitSep sep rest with
      | nil => exact absurd hs (splitSep_ne_nil sep rest)
      | cons h0 t0 =>
        rw [List.cons_append,
          splitSep_cons_of_ne sep c (rest ++ sep :: b) hc h0 (t0 ++ splitSep sep b)
            (by rw [ih, hs]; rfl),
          splitSep_cons_of_ne sep c rest hc h0 t0 hs]
        rfl

theorem splitSep_concat_sep (sep : Char) (a : List Char) :
    splitSep sep (a ++ [sep]) = splitSep sep a ++ [[]] := by
  have := splitSep_append_sep sep a []
  simpa [splitSep] using this

theorem splitSep_join_concat (l : List PyStr) (hne : l ≠ [])
    (hc : ∀ p ∈ l, '\n' ∉ p) :
    splitSep '\n' (joinNl l ++ ['\n']) = l ++ [[]] := by
  induction l with
  | nil => exact absurd rfl hne
  | cons p rest ih =>
    cases rest with
    | nil =>
      have hp : '\n' ∉ p := hc p (List.mem_cons_self p [])
      rw [joinNl, splitSep_concat_sep, splitSep_no_sep '\n' p hp]
    | cons q t =>
      have hp : '\n' ∉ p := hc p (List.mem_cons_self p (q :: t))
      have hjoin : joinNl (p :: q :: t) = p ++ '\n' :: joinNl (q :: t) := rfl
      rw [hjoin, List.append_assoc, List.cons_append, splitSep_append_sep,
        splitSep_no_sep '\n' p hp,
        ih (by simp) (fun r hr => hc r (List.mem_cons_of_mem p hr))]
      simp

theorem getLast?_splitSep_of_last_ne (sep : Char) (c : List Char)
    (hne : c ≠ []) (hlast : c.getLast? ≠ some sep) :
    ∃ x, (splitSep sep c).getLast? = some x ∧ x ≠ [] := by
  induction c with
  | nil => exact absurd rfl hne
  | cons d rest ih =>
    cases hr : rest with
    | nil =>
      subst hr
      have hd : ¬ d = sep := by
        intro h
        exact hlast (by simp [h])
      refine ⟨[d], ?_, by simp⟩
      rw [splitSep_cons_of_ne sep d [] hd [] [] rfl]
      rfl
    | cons e t =>
      subst hr
      have hlast2 : (e :: t).getLast? ≠ some sep := by
        rw [List.getLast?_cons_cons] at hlast
        exact hlast
      obtain ⟨x, hx, hxne⟩ := ih (by simp) hlast2
      by_cases hd : d = sep
      · subst hd
        refine ⟨x, ?_, hxne⟩
        rw [splitSep_cons_of_sep]
        cases hs2 : splitSep d (e :: t) with
        | nil => exact absurd hs2 (splitSep_ne_nil _ _)
        | cons y ys =>
          rw [hs2] at hx
          rw [List.getLast?_cons_cons]
          exact hx
      · cases hs2 : splitSep sep (e :: t) with
        | nil => exact absurd hs2 (splitSep_ne_nil _ _)
        | cons y ys =>
          cases ys with
          | nil =>
            refine ⟨d :: y, ?_, by simp⟩
            rw [splitSep_cons_of_ne sep d (e :: t) hd y [] hs2]
            rfl
          | cons z zs =>
            refine ⟨x, ?_, hxne⟩
            rw [splitSep_cons_of_ne sep d (e :: t) hd y (z :: zs) hs2,
              List.getLast?_cons_cons]
            rw [hs2, List.getLast?_cons_cons] at hx
            exact hx

/-! Helper lemmas about `pySplitlines`. -/

theorem pySplitlines_nil : pySplitlines [] = [] := by
  simp [pySplitlines]

theorem pySplitlines_eq_dropLast (s : PyStr) (hs : s ≠ [])
    (h : (splitSep '\n' s).getLast? = some []) :
    pySplitlines s = (splitSep '\n' s).dropLast := by
  unfold pySplitlines
  rw [if_neg hs, h]

theorem pySplitlines_eq_splitSep (s : PyStr) (hs : s ≠ []) (y : Char) (ys : List Char)
    (h : (splitSep '\n' s).getLast? = some (y :: ys)) :
    pySplitlines s = splitSep '\n' s := by
  unfold pySplitlines
  rw [if_neg hs, h]

theorem mem_pySplitlines_no_newline (s : PyStr) (l : PyStr)
    (h : l ∈ pySplitlines s) : '\n' ∉ l := by
  unfold pySplitlines at h
  split at h
  · simp at h
  · split at h
    · exact mem_splitSep_not_sep '\n' s l ((List.dropLast_sublist _).subset h)
    · exact mem_splitSep_not_sep '\n' s l h

/-- Core shape lemma for the exclude-file update: appending the missing
patterns (each newline-free), after normalizing the trailing newline of the
old content, extends the line list by exactly those patterns. -/
theorem pySplitlines_content_append (c : PyStr) (toAdd : List PyStr)
    (hne : toAdd ≠ []) (hc : ∀ p ∈ toAdd, '\n' ∉ p) :
    pySplitlines ((if c ≠ [] ∧ c.getLast? ≠ some '\n' then c ++ ['\n'] else c)
      ++ (joinNl toAdd ++ ['\n'])) = pySplitlines c ++ toAdd := by
  have hjoin := splitSep_join_concat toAdd hne hc
  by_cases hcnil : c = []
  · subst hcnil
    rw [if_neg (by simp), List.nil_append, pySplitlines_nil, List.nil_append]
    rw [pySplitlines_eq_dropLast _ (by simp) (by rw [hjoin]; exact List.getLast?_concat _),
      hjoin, List.dropLast_concat]
  · by_cases hlastc : c.getLast? = some '\n'
    · -- old content already ends with a newline
      obtain ⟨c2, hc2⟩ : ∃ c2, c = c2 ++ ['\n'] := by
        refine ⟨c.dropLast, ?_⟩
        have hget := List.getLast?_eq_getLast c hcnil
        have hval : c.getLast hcnil = '\n' := by
          rw [hget] at hlastc
          exact (Option.some.injEq _ _).mp hlastc
        have h3 := List.dropLast_concat_getLast hcnil
        rw [hval] at h3
        exact h3.symm
      subst hc2
      rw [if_neg (by simp [hlastc])]
      have hsplit_new : splitSep '\n' ((c2 ++ ['\n']) ++ (joinNl toAdd ++ ['\n']))
          = (splitSep '\n' c2 ++ toAdd) ++ [[]] := by
        rw [List.append_assoc, List.singleton_append,
          splitSep_append_sep, hjoin, ← List.append_assoc]
      have hsplit_old : splitSep '\n' (c2 ++ ['\n']) = splitSep '\n' c2 ++ [[]] :=
        splitSep_concat_sep '\n' c2
      rw [pySplitlines_eq_dropLast _ (by simp)
          (by rw [hsplit_new]; exact List.getLast?_concat _),
        hsplit_new, List.dropLast_concat,
        pySplitlines_eq_dropLast _ (by simp)
          (by rw [hsplit_old]; exact List.getLast?_concat _),
        hsplit_old, List.dropLast_concat]
    · -- old content does not end with a newline: one is inserted first
      rw [if_pos ⟨hcnil, hlastc⟩]
      have hsplit_new : splitSep '\n' ((c ++ ['\n']) ++ (joinNl toAdd ++ ['\n']))
          = (splitSep '\n' c ++ toAdd) ++ [[]] := by
        rw [List.append_assoc, List.singleton_append, splitSep_append_sep, hjoin,
          ← List.append_assoc]
      obtain ⟨x, hx, hxne⟩ := getLast?_splitSep_of_last_ne '\n' c hcnil hlastc
      cases x with
      | nil => exact absurd rfl hxne
      | cons y ys =>
        rw [pySplitlines_eq_dropLast _ (by simp)
            (by rw [hsplit_new]; exact List.getLast?_concat _),
          hsplit_new, List.dropLast_concat,
          pySplitlines_eq_splitSep c hcnil y ys hx]

/-! Embedding of `_ensure_git_excludes` (workspace.py lines 221 to 263). -/

/-- Constant `DEFAULT_GIT_EXCLUDES` from the source. -/
def DEFAULT_GIT_EXCLUDES : List PyStr :=
  [S ".git/", S ".hg/", S ".svn/",
   S ".DS_Store", S "__pycache__/", S ".pytest_cache/", S ".mypy_cache/",
   S ".ruff_cache/",
   S "node_modules/", S ".venv/", S "venv/", S ".next/", S "dist/", S "build/",
   S ".claude_data/", S ".claude/", S "inputs/"]

/-- Strip each line and keep the nonempty results, the comprehension pattern
used twice in `_ensure_git_excludes` (for the extras and for the existing
exclude-file lines). -/
def stripNonempty (lines : List PyStr) : List PyStr :=
  lines.filterMap (fun l => if pyStrip l = [] then none else some (pyStrip l))

/-- Parse of the extra patterns from the `WORKSPACE_GIT_IGNORE` value:
`extra.replace(",", "\n").splitlines()`, each entry stripped, blanks dropped,
guarded by `if extra:`. -/
def parseExtraPatterns (extra : PyStr) : List PyStr :=
  if extra = [] then []
  else stripNonempty (pySplitlines (extra.map (fun c => if c = ',' then '\n' else c)))

/-- Candidate pattern list: `list(DEFAULT_GIT_EXCLUDES)` plus the extras. -/
def gitExcludePatterns (extra : PyStr) : List PyStr :=
  DEFAULT_GIT_EXCLUDES ++ parseExtraPatterns extra

/-- Lines already present in the exclude file as read by the source
(stripped, blank lines ignored; a missing file yields no lines). -/
def existingLines : Option PyStr → List PyStr
  | none => []
  | some c => stripNonempty (pySplitlines c)

/-- Patterns not already present: `[p for p in patterns if p not in existing]`. -/
def excludeToAdd (extra : PyStr) (file : Option PyStr) : List PyStr :=
  (gitExcludePatterns extra).filter (fun p => decide (¬ p ∈ existingLines file))

/-- New exclude-file content: the old content (with a newline appended when
nonempty and not newline-terminated) followed by the missing patterns, one
per line, with a final newline. -/
def excludeNewContent (file : Option PyStr) (toAdd : List PyStr) : PyStr :=
  (match file with
   | none => []
   | some c => if c ≠ [] ∧ c.getLast? ≠ some '\n' then c ++ ['\n'] else c)
  ++ (joinNl toAdd ++ ['\n'])

/-- Model of `WorkspaceManager._ensure_git_excludes`.  The filesystem is
reduced to the exclude file of the repository (`none` when the file does not
exist), `isRepo` is the `is_repository(repo_path)` answer, and `extra` is the
`WORKSPACE_GIT_IGNORE` environment value.  The function returns the exclude
file after the call. -/
def ensureGitExcludes (isRepo : Bool) (extra : PyStr) (file : Option PyStr) : Option PyStr :=
  if isRepo = false then file
  else if gitExcludePatterns extra = [] then file
  else if excludeToAdd extra file = [] then file
  else some (excludeNewContent file (excludeToAdd extra file))

theorem mem_stripNonempty_iff (lines : List PyStr) (p : PyStr) :
    p ∈ stripNonempty lines ↔ ∃ l, l ∈ lines ∧ pyStrip l = p ∧ p ≠ [] := by
  unfold stripNonempty
  rw [List.mem_filterMap]
  constructor
  · rintro ⟨a, ha, hfa⟩
    by_cases h : pyStrip a = []
    · rw [if_pos h] at hfa
      exact absurd hfa (by simp)
    · rw [if_neg h] at hfa
      have := (Option.some.injEq _ _).mp hfa
      exact ⟨a, ha, this, this ▸ h⟩
  · rintro ⟨l, hl, hstrip, hne⟩
    refine ⟨l, hl, ?_⟩
    rw [if_neg (hstrip ▸ hne), hstrip]

theorem default_excludes_props :
    ∀ p ∈ DEFAULT_GIT_EXCLUDES, p ≠ [] ∧ pyStrip p = p ∧ '\n' ∉ p := by
  decide

theorem pattern_props (extra : PyStr) :
    ∀ p ∈ gitExcludePatterns extra, p ≠ [] ∧ pyStrip p = p ∧ '\n' ∉ p := by
  intro p hp
  rw [gitExcludePatterns, List.mem_append] at hp
  rcases hp with hp | hp
  · exact default_excludes_props p hp
  · unfold parseExtraPatterns at hp
    split at hp
    · simp at hp
    · rw [mem_stripNonempty_iff] at hp
      obtain ⟨l, hl, hstrip, hne⟩ := hp
      refine ⟨hne, by rw [← hstrip, pyStrip_idem], ?_⟩
      intro hmem
      exact mem_pySplitlines_no_newline _ l hl (mem_pyStrip_sub l '\n' (hstrip ▸ hmem))

theorem stripNonempty_append (a b : List PyStr) :
    stripNonempty (a ++ b) = stripNonempty a ++ stripNonempty b := by
  unfold stripNonempty
  exact List.filterMap_append a b _

theorem existingLines_eq (file : Option PyStr) :
    existingLines file = stripNonempty (pySplitlines (file.getD [])) := by
  cases file with
  | none => simp [existingLines, pySplitlines_nil, stripNonempty]
  | some c => rfl

theorem excludeToAdd_after (extra : PyStr) (file : Option PyStr)
    (hta : excludeToAdd extra file ≠ []) :
    excludeToAdd extra (some (excludeNewContent file (excludeToAdd extra file))) = [] := by
  have hsub : ∀ p ∈ excludeToAdd extra file, p ∈ gitExcludePatterns extra :=
    fun p hp => List.mem_of_mem_filter hp
  have hprops := pattern_props extra
  have hnl : ∀ p ∈ excludeToAdd extra file, '\n' ∉ p :=
    fun p hp => (hprops p (hsub p hp)).2.2
  have hlines : pySplitlines (excludeNewContent file (excludeToAdd extra file))
      = pySplitlines (file.getD []) ++ excludeToAdd extra file := by
    unfold excludeNewContent
    cases file with
    | none =>
      have := pySplitlines_content_append [] (excludeToAdd extra none) hta hnl
      rw [if_neg (by simp)] at this
      simpa using this
    | some c => exact pySplitlines_content_append c _ hta hnl
  rw [excludeToAdd, List.filter_eq_nil_iff]
  intro p hp
  simp only [decide_eq_true_eq, Decidable.not_not]
  rw [existingLines_eq, Option.getD_some, hlines, stripNonempty_append]
  by_cases hin : p ∈ existingLines file
  · rw [existingLines_eq] at hin
    exact List.mem_append_left _ hin
  · have hmem : p ∈ excludeToAdd extra file :=
      List.mem_filter.mpr ⟨hp, by simpa using hin⟩
    refine List.mem_append_right _ ?_
    rw [mem_stripNonempty_iff]
    exact ⟨p, hmem, (hprops p hp).2.1, (hprops p hp).1⟩

/-- Claim C7: `_ensure_git_excludes` is idempotent — a second call with the
same candidate patterns leaves the exclude file byte-for-byte identical to
its state after the first call — and it is a no-op when the path is not a
valid repository. -/
theorem ensure_git_excludes_idempotent (isRepo : Bool) (extra : PyStr)
    (file : Option PyStr) :
    ensureGitExcludes isRepo extra (ensureGitExcludes isRepo extra file)
      = ensureGitExcludes isRepo extra file
    ∧ ensureGitExcludes false extra file = file := by
  refine ⟨?_, by simp [ensureGitExcludes]⟩
  cases isRepo with
  | false => simp [ensureGitExcludes]
  | true =>
    by_cases hpats : gitExcludePatterns extra = []
    · simp [ensureGitExcludes, hpats]
    · by_cases hta : excludeToAdd extra file = []
      · simp [ensureGitExcludes, hpats, hta]
      · have hres : ensureGitExcludes true extra file
            = some (excludeNewContent file (excludeToAdd extra file)) := by
          simp [ensureGitExcludes, hpats, hta]
        rw [hres]
        have h2 := excludeToAdd_after extra file hta
        simp [ensureGitExcludes, hpats, h2]

/-! Embedding of `_derive_repo_path` (workspace.py lines 186 to 193). -/

/-- Model of `pathlib` path joining `root / s` for a relative operand:
the operand is split on slashes, and empty and single-dot components are
dropped, as `PurePosixPath` does; an absolute operand replaces the root.
Filesystem paths are lists of path components. -/
def pathJoin (root : List PyStr) (s : PyStr) : List PyStr :=
  let comps := (splitSep '/' s).filter (fun c => decide (¬ (c = [] ∨ c = S ".")))
  if s.head? = some '/' then comps else root ++ comps

/-- Step one of `_derive_repo_path`: strip the query string and the
fragment, strip trailing slashes, and take the final path segment, with
the `repo` fallback for an empty cleaned URL. -/
def deriveName0 (url : PyStr) : PyStr :=
  if rstripSlash (splitFirst '#' (splitFirst '?' url)) = [] then S "repo"
  else (splitSep '/' (rstripSlash (splitFirst '#' (splitFirst '?' url)))).getLastD []

/-- Step two of `_derive_repo_path`: strip a trailing `.git` suffix. -/
def deriveName1 (url : PyStr) : PyStr :=
  if S ".git" <:+ deriveName0 url then
    (deriveName0 url).take ((deriveName0 url).length - 4)
  else deriveName0 url

/-- Final directory name chosen by `_derive_repo_path`: fall back to the
literal `repo` when the name is empty, a dot or a dot-dot. -/
def deriveRepoName (url : PyStr) : PyStr :=
  if deriveName1 url = [] ∨ deriveName1 url = S "." ∨ deriveName1 url = S ".." then
    S "repo"
  else deriveName1 url

/-- Model of `WorkspaceManager._derive_repo_path`: `self.root_path / name`. -/
def deriveRepoPath (root : List PyStr) (url : PyStr) : List PyStr :=
  pathJoin root (deriveRepoName url)

theorem getLastD_mem_of_ne_nil (l : List PyStr) (h : l ≠ []) : l.getLastD [] ∈ l := by
  cases hl : l.getLast? with
  | none => exact absurd (List.getLast?_eq_none_iff.mp hl) h
  | some a =>
    rw [List.getLastD_eq_getLast?, hl]
    exact List.mem_of_getLast?_eq_some hl

theorem slash_not_mem_deriveName0 (url : PyStr) : '/' ∉ deriveName0 url := by
  unfold deriveName0
  split
  · decide
  · rename_i h
    exact mem_splitSep_not_sep '/' _ _
      (getLastD_mem_of_ne_nil _ (splitSep_ne_nil '/' _))

theorem slash_not_mem_deriveName1 (url : PyStr) : '/' ∉ deriveName1 url := by
  unfold deriveName1
  split
  · intro hmem
    exact slash_not_mem_deriveName0 url ((List.take_sublist _ _).subset hmem)
  · exact slash_not_mem_deriveName0 url

theorem deriveRepoName_props (url : PyStr) :
    deriveRepoName url ≠ [] ∧ deriveRepoName url ≠ S "."
      ∧ deriveRepoName url ≠ S ".." ∧ '/' ∉ deriveRepoName url := by
  unfold deriveRepoName
  split
  · exact ⟨by decide, by decide, by decide, by decide⟩
  · rename_i hbad
    push_neg at hbad
    exact ⟨hbad.1, hbad.2.1, hbad.2.2, slash_not_mem_deriveName1 url⟩

/-- Claim C4: `_derive_repo_path` is a pure function of the URL whose result
is always a strict child of `root_path`: the root extended by one component
that is nonempty, not a dot, not a dot-dot, and slash-free — hence never
`root_path` itself and never a path outside it. -/
theorem derive_repo_path_strict_child (root : List PyStr) (url : PyStr) :
    deriveRepoPath root url = root ++ [deriveRepoName url]
    ∧ deriveRepoName url ≠ [] ∧ deriveRepoName url ≠ S "."
    ∧ deriveRepoName url ≠ S ".." ∧ '/' ∉ deriveRepoName url
    ∧ deriveRepoPath root url ≠ root := by
  obtain ⟨h1, h2, h3, h4⟩ := deriveRepoName_props url
  have hhead : ¬ (deriveRepoName url).head? = some '/' := by
    cases hn : deriveRepoName url with
    | nil => simp
    | cons c t =>
      simp only [List.head?_cons]
      intro hc
      apply h4
      rw [hn, (Option.some.injEq _ _).mp hc]
      exact List.mem_cons_self '/' t
  have hjoin : deriveRepoPath root url = root ++ [deriveRepoName url] := by
    unfold deriveRepoPath pathJoin
    rw [splitSep_no_sep '/' _ h4]
    simp only [List.filter_cons, List.filter_nil]
    rw [if_neg hhead]
    congr 1
    rw [if_pos (by simp [h1, h2])]
  refine ⟨hjoin, h1, h2, h3, h4, ?_⟩
  rw [hjoin]
  intro hroot
  have := congrArg List.length hroot
  simp at this

/-! Embedding of the `urllib.parse` scheme and netloc extraction used by
`_build_git_env`, and of `_build_git_env` / `_ensure_git_askpass`
(workspace.py lines 132 to 184). -/

/-- Characters allowed after the first one in a URL scheme
(`scheme_chars` of `urllib.parse`). -/
def isSchemeChar (c : Char) : Bool :=
  c.isAlpha || c.isDigit || c == '+' || c == '-' || c == '.'

/-- C0 control characters and the space character. -/
def isC0OrSpace (c : Char) : Bool := decide (c.val ≤ 32)

/-- Sanitization performed by CPython `urlsplit` before parsing: strip C0
control characters and spaces from the left end only — the right end is
deliberately preserved (`url.lstrip(_WHATWG_C0_CONTROL_OR_SPACE)`, with a
source comment that some applications rely on trailing characters) — then
remove every tab, carriage return and line feed. -/
def urlSanitize (u : PyStr) : PyStr :=
  (u.dropWhile isC0OrSpace).filter
    (fun c => decide (¬ (c = '\t' ∨ c = '\r' ∨ c = '\n')))

/-- First-character test of `urlsplit`: `url[0].isascii() and url[0].isalpha()`. -/
def headIsAlpha (l : PyStr) : Bool :=
  match l.head? with
  | some c => c.isAlpha
  | none => false

/-- Scheme extraction of `urllib.parse.urlsplit`: a valid scheme is a
nonempty run of scheme characters starting with an ASCII letter, located
before the first colon; it is returned lowercased together with the
remainder of the URL.  Otherwise the scheme is empty. -/
def urlSplitScheme (u : PyStr) : PyStr × PyStr :=
  match (urlSanitize u).findIdx? (fun c => c == ':') with
  | some i =>
    if 0 < i ∧ headIsAlpha (urlSanitize u) ∧ ((urlSanitize u).take i).all isSchemeChar
    then (pyLower ((urlSanitize u).take i), (urlSanitize u).drop (i + 1))
    else ([], urlSanitize u)
  | none => ([], urlSanitize u)

/-- Scheme of a URL, as `urlparse(repo_url).scheme`. -/
def urlSchemeOf (u : PyStr) : PyStr := (urlSplitScheme u).1

/-- Netloc of a URL, as `urlparse(repo_url).netloc`: present only after a
double slash, running to the next slash, question mark or hash. -/
def urlNetlocOf (u : PyStr) : PyStr :=
  match (urlSplitScheme u).2 with
  | '/' :: '/' :: r => r.takeWhile (fun c => decide (¬ (c = '/' ∨ c = '?' ∨ c = '#')))
  | _ => []

/-- Unicode whitespace characters removed by Python `str.strip()` with no
argument: the code points for which `str.isspace` holds. -/
def pyIsSpaceU (c : Char) : Bool :=
  decide (0x9 ≤ c.val ∧ c.val ≤ 0xd) || decide (0x1c ≤ c.val ∧ c.val ≤ 0x20)
    || c.val == 0x85 || c.val == 0xa0 || c.val == 0x1680
    || decide (0x2000 ≤ c.val ∧ c.val ≤ 0x200a) || c.val == 0x2028
    || c.val == 0x2029 || c.val == 0x202f || c.val == 0x205f || c.val == 0x3000

/-- Model of Python `str.strip()` over the full Unicode whitespace set,
used where the stripped string can carry non-ASCII characters (the netloc
check of `_build_git_env`). -/
def pyStripU (s : PyStr) : PyStr :=
  ((s.dropWhile pyIsSpaceU).reverse.dropWhile pyIsSpaceU).reverse

/-- Host string checked by `_build_git_env`:
`(parsed.netloc or "").strip().lower()`. -/
def gitEnvHostOf (u : PyStr) : PyStr := pyLower (pyStripU (urlNetlocOf u))

/-- Body of the askpass helper script written by `_ensure_git_askpass`:
a fixed literal that reads the credentials from the environment (the braces
of the shell parameter expansions are written as hex escapes). -/
def askpassScript : PyStr :=
  S "#!/bin/sh\nprompt=\"$1\"\ncase \"$prompt\" in\n  *Username*) echo \"$\x7bPOCO_GIT_USERNAME:-x-access-token\x7d\" ;;\n  *) echo \"$\x7bPOCO_GIT_TOKEN:-\x7d\" ;;\nesac\n"

/-- Constant `stat.S_IRUSR`. -/
def S_IRUSR : Nat := 0o400

/-- Constant `stat.S_IWUSR`. -/
def S_IWUSR : Nat := 0o200

/-- Constant `stat.S_IXUSR`. -/
def S_IXUSR : Nat := 0o100

/-- Permission bits passed to `chmod` for the askpass script. -/
def askpassMode : Nat := S_IRUSR ||| S_IWUSR ||| S_IXUSR

/-- Model of `_ensure_git_askpass`: returns the script path used together
with the file write performed (content and mode), if any.  `cached` is the
`_git_askpass_path` attribute, `cachedExists` says whether that file still
exists, and `freshPath` is the path a new `mkstemp` call would produce.
The function takes no token: the script body is a constant. -/
def ensureGitAskpass (cached : Option PyStr) (cachedExists : Bool) (freshPath : PyStr) :
    PyStr × Option (PyStr × Nat) :=
  match cached with
  | some p =>
    if cachedExists then (p, none)
    else (freshPath, some (askpassScript, askpassMode))
  | none => (freshPath, some (askpassScript, askpassMode))

/-- Result of `_build_git_env`: the environment map handed to the git
subprocess (in insertion order) and the askpass-script write performed. -/
structure GitEnvResult where
  env : List (String × PyStr)
  scriptWrite : Option (PyStr × Nat)
deriving DecidableEq

/-- Model of `WorkspaceManager._build_git_env`.  Always sets
`GIT_TERMINAL_PROMPT=0`; a missing or empty token (falsy in Python) stops
there; a non-allow-listed scheme or host stops there (the `ValueError`
branch of `urlparse` also returns the base environment, and any URL on
which CPython raises has a netloc that cannot equal an allow-listed host);
otherwise the askpass script is materialized and the three credential
variables are added. -/
def buildGitEnv (cached : Option PyStr) (cachedExists : Bool) (freshPath : PyStr)
    (repo_url : PyStr) (git_token : Option PyStr) : GitEnvResult :=
  match git_token with
  | none => ⟨[("GIT_TERMINAL_PROMPT", S "0")], none⟩
  | some tok =>
    if tok = [] then ⟨[("GIT_TERMINAL_PROMPT", S "0")], none⟩
    else if ¬ (urlSchemeOf repo_url = S "http" ∨ urlSchemeOf repo_url = S "https")
        ∨ ¬ (gitEnvHostOf repo_url = S "github.com"
             ∨ gitEnvHostOf repo_url = S "www.github.com") then
      ⟨[("GIT_TERMINAL_PROMPT", S "0")], none⟩
    else
      ⟨[("GIT_TERMINAL_PROMPT", S "0"),
        ("GIT_ASKPASS", (ensureGitAskpass cached cachedExists freshPath).1),
        ("POCO_GIT_USERNAME", S "x-access-token"),
        ("POCO_GIT_TOKEN", tok)],
       (ensureGitAskpass cached cachedExists freshPath).2⟩

/-- Claim C1: `_build_git_env` always contains `GIT_TERMINAL_PROMPT=0`; a
missing or blank token yields exactly that one entry; with a token, a
non-http(s) scheme or a host other than `github.com` or `www.github.com`
(compared case-insensitively after stripping) withholds the askpass and
token variables entirely; with a token and an allow-listed URL the map
additionally carries the askpass script path, the `x-access-token`
username sentinel and the raw token. -/
theorem build_git_env_spec (cached : Option PyStr) (cachedExists : Bool)
    (freshPath : PyStr) (url : PyStr) (tok : Option PyStr) :
    ((buildGitEnv cached cachedExists freshPath url tok).env.lookup
        "GIT_TERMINAL_PROMPT" = some (S "0"))
    ∧ ((tok = none ∨ tok = some []) →
        buildGitEnv cached cachedExists freshPath url tok
          = ⟨[("GIT_TERMINAL_PROMPT", S "0")], none⟩)
    ∧ (∀ t, tok = some t → t ≠ [] →
        (¬ (urlSchemeOf url = S "http" ∨ urlSchemeOf url = S "https")
          ∨ ¬ (gitEnvHostOf url = S "github.com"
               ∨ gitEnvHostOf url = S "www.github.com")) →
        buildGitEnv cached cachedExists freshPath url tok
          = ⟨[("GIT_TERMINAL_PROMPT", S "0")], none⟩)
    ∧ (∀ t, tok = some t → t ≠ [] →
        (urlSchemeOf url = S "http" ∨ urlSchemeOf url = S "https") →
        (gitEnvHostOf url = S "github.com"
          ∨ gitEnvHostOf url = S "www.github.com") →
        (buildGitEnv cached cachedExists freshPath url tok).env.lookup "GIT_ASKPASS"
            = some (ensureGitAskpass cached cachedExists freshPath).1
        ∧ (buildGitEnv cached cachedExists freshPath url tok).env.lookup
            "POCO_GIT_USERNAME" = some (S "x-access-token")
        ∧ (buildGitEnv cached cachedExists freshPath url tok).env.lookup
            "POCO_GIT_TOKEN" = some t) := by
  have hred : ∀ t : PyStr, buildGitEnv cached cachedExists freshPath url (some t)
      = if t = [] then ⟨[("GIT_TERMINAL_PROMPT", S "0")], none⟩
        else if ¬ (urlSchemeOf url = S "http" ∨ urlSchemeOf url = S "https")
            ∨ ¬ (gitEnvHostOf url = S "github.com"
                 ∨ gitEnvHostOf url = S "www.github.com")
        then ⟨[("GIT_TERMINAL_PROMPT", S "0")], none⟩
        else ⟨[("GIT_TERMINAL_PROMPT", S "0"),
          ("GIT_ASKPASS", (ensureGitAskpass cached cachedExists freshPath).1),
          ("POCO_GIT_USERNAME", S "x-access-token"),
          ("POCO_GIT_TOKEN", t)],
          (ensureGitAskpass cached cachedExists freshPath).2⟩ := fun _ => rfl
  refine ⟨?_, ?_, ?_, ?_⟩
  · cases tok with
    | none => rfl
    | some t =>
      rw [hred t]
      by_cases ht : t = []
      · rw [if_pos ht]
        rfl
      · by_cases hcond : ¬ (urlSchemeOf url = S "http" ∨ urlSchemeOf url = S "https")
            ∨ ¬ (gitEnvHostOf url = S "github.com"
                 ∨ gitEnvHostOf url = S "www.github.com")
        · rw [if_neg ht, if_pos hcond]
          rfl
        · rw [if_neg ht, if_neg hcond]
          rfl
  · rintro (rfl | rfl)
    · rfl
    · rw [hred []]
      rw [if_pos rfl]
  · rintro t rfl ht hcond
    rw [hred t, if_neg ht, if_pos hcond]
  · rintro t rfl ht hscheme hhost
    have hcond : ¬ (¬ (urlSchemeOf url = S "http" ∨ urlSchemeOf url = S "https")
        ∨ ¬ (gitEnvHostOf url = S "github.com"
             ∨ gitEnvHostOf url = S "www.github.com")) := by
      push_neg
      exact ⟨hscheme, hhost⟩
    rw [hred t, if_neg ht, if_neg hcond]
    exact ⟨rfl, rfl, rfl⟩

/-- Witness for claim C1: a GitHub URL with token `abc` receives the three
credential variables, and a GitLab URL with the same token receives only
`GIT_TERMINAL_PROMPT=0`. -/
theorem build_git_env_spec_witness :
    ((buildGitEnv none false (S "/tmp/ap") (S "https://github.com/acme/repo")
        (some (S "abc"))).env.lookup "GIT_ASKPASS" = some (S "/tmp/ap")
      ∧ (buildGitEnv none false (S "/tmp/ap") (S "https://github.com/acme/repo")
        (some (S "abc"))).env.lookup "POCO_GIT_TOKEN" = some (S "abc"))
    ∧ (buildGitEnv none false (S "/tmp/ap") (S "https://gitlab.com/acme/repo")
        (some (S "abc")))
      = ⟨[("GIT_TERMINAL_PROMPT", S "0")], none⟩ := by
  constructor
  · have h := (build_git_env_spec none false (S "/tmp/ap")
      (S "https://github.com/acme/repo") (some (S "abc"))).2.2.2
      (S "abc") rfl (by decide) (by decide) (by decide)
    exact ⟨h.1, h.2.2⟩
  · exact (build_git_env_spec none false (S "/tmp/ap")
      (S "https://gitlab.com/acme/repo") (some (S "abc"))).2.2.1
      (S "abc") rfl (by decide) (by decide)

/-- Reduction of `buildGitEnv` on a present token, shared by the claim
proofs below. -/
theorem buildGitEnv_some_eq (cached : Option PyStr) (cachedExists : Bool)
    (freshPath url t : PyStr) :
    buildGitEnv cached cachedExists freshPath url (some t)
      = if t = [] then ⟨[("GIT_TERMINAL_PROMPT", S "0")], none⟩
        else if ¬ (urlSchemeOf url = S "http" ∨ urlSchemeOf url = S "https")
            ∨ ¬ (gitEnvHostOf url = S "github.com"
                 ∨ gitEnvHostOf url = S "www.github.com")
        then ⟨[("GIT_TERMINAL_PROMPT", S "0")], none⟩
        else ⟨[("GIT_TERMINAL_PROMPT", S "0"),
          ("GIT_ASKPASS", (ensureGitAskpass cached cachedExists freshPath).1),
          ("POCO_GIT_USERNAME", S "x-access-token"),
          ("POCO_GIT_TOKEN", t)],
          (ensureGitAskpass cached cachedExists freshPath).2⟩ := rfl

/-- Claim C5: whenever the `_build_git_env` flow writes the askpass helper
script, the body written is the fixed script constant — identical for any
two tokens, the credentials being read from the environment at run time —
and the permission bits grant read, write and execute to the owner only,
with no group or other permission bits. -/
theorem askpass_script_fixed_owner_only (cached : Option PyStr) (cachedExists : Bool)
    (freshPath url : PyStr) (tok : Option PyStr) (c : PyStr) (m : Nat)
    (h : (buildGitEnv cached cachedExists freshPath url tok).scriptWrite = some (c, m)) :
    c = askpassScript ∧ m = askpassMode
    ∧ m &&& 0o700 = 0o700 ∧ m &&& 0o077 = 0
    ∧ ∀ t1 t2 : PyStr, t1 ≠ [] → t2 ≠ [] →
        (buildGitEnv cached cachedExists freshPath url (some t1)).scriptWrite
          = (buildGitEnv cached cachedExists freshPath url (some t2)).scriptWrite := by
  have hask : (ensureGitAskpass cached cachedExists freshPath).2 = none
      ∨ (ensureGitAskpass cached cachedExists freshPath).2
        = some (askpassScript, askpassMode) := by
    cases cached with
    | none => exact Or.inr rfl
    | some p =>
      cases cachedExists with
      | true => exact Or.inl rfl
      | false => exact Or.inr rfl
  have hcm : c = askpassScript ∧ m = askpassMode := by
    cases tok with
    | none => exact absurd h (by simp [buildGitEnv])
    | some t =>
      rw [buildGitEnv_some_eq] at h
      by_cases ht : t = []
      · rw [if_pos ht] at h
        exact absurd h (by simp)
      · rw [if_neg ht] at h
        by_cases hcond : ¬ (urlSchemeOf url = S "http" ∨ urlSchemeOf url = S "https")
            ∨ ¬ (gitEnvHostOf url = S "github.com"
                 ∨ gitEnvHostOf url = S "www.github.com")
        · rw [if_pos hcond] at h
          exact absurd h (by simp)
        · rw [if_neg hcond] at h
          rcases hask with hn | hs
          · rw [hn] at h
            exact absurd h (by simp)
          · rw [hs] at h
            have h2 := (Option.some.injEq _ _).mp h
            exact ⟨(congrArg Prod.fst h2).symm, (congrArg Prod.snd h2).symm⟩
  refine ⟨hcm.1, hcm.2, by rw [hcm.2]; decide, by rw [hcm.2]; decide, ?_⟩
  intro t1 t2 h1 h2
  rw [buildGitEnv_some_eq, buildGitEnv_some_eq, if_neg h1, if_neg h2]
  by_cases hcond : ¬ (urlSchemeOf url = S "http" ∨ urlSchemeOf url = S "https")
      ∨ ¬ (gitEnvHostOf url = S "github.com"
           ∨ gitEnvHostOf url = S "www.github.com")
  · rw [if_pos hcond, if_pos hcond]
  · rw [if_neg hcond, if_neg hcond]

/-- Witness for claim C5: the first call on a GitHub URL with a token
writes the fixed script body with owner-only mode bits. -/
theorem askpass_script_fixed_owner_only_witness :
    (buildGitEnv none false (S "/tmp/ap") (S "https://github.com/acme/repo")
        (some (S "abc"))).scriptWrite = some (askpassScript, askpassMode)
    ∧ askpassMode &&& 0o077 = 0 := by
  have hw : (buildGitEnv none false (S "/tmp/ap") (S "https://github.com/acme/repo")
      (some (S "abc"))).scriptWrite = some (askpassScript, askpassMode) := by decide
  exact ⟨hw, (askpass_script_fixed_owner_only none false (S "/tmp/ap")
    (S "https://github.com/acme/repo") (some (S "abc")) askpassScript askpassMode
    hw).2.2.2.1⟩

/-! Embedding of the filesystem-state operations: `_setup_session_persistence`
(lines 67 to 76), `cleanup` (lines 78 to 88) and `_ensure_inputs_dir`
(lines 265 to 283). -/

/-- Errors surfaced by the workspace manager model. -/
inductive WsError where
  | notADirectory
  | targetNotRepo (path : List PyStr)
deriving DecidableEq

/-- State of one filesystem path (here `system_claude_home`). -/
inductive PathState where
  | absent
  | symlinkTo (target : List PyStr)
  | directory
  | file
deriving DecidableEq

/-- Result of `Path.is_symlink()`. -/
def isSymlinkState : PathState → Bool
  | .symlinkTo _ => true
  | _ => false

/-- Result of `Path.exists()`; for a symlink the call follows the link, but
the source always tests `is_symlink` in the same condition, so the value
used for symlinks is immaterial here. -/
def existsState : PathState → Bool
  | .absent => false
  | _ => true

/-- Model of `shutil.rmtree`: removes a directory tree; CPython raises
`NotADirectoryError` when it is invoked on a regular file (`os.scandir` and
`os.rmdir` both reject non-directories).  The source calls it only when the
path exists and is not a symlink. -/
def rmtree : PathState → Except WsError Unit
  | .directory => .ok ()
  | _ => .error .notADirectory

/-- Model of `_setup_session_persistence`: `persistent_claude_data` is
ensured with `mkdir(exist_ok=True)` (the returned Bool: it exists after the
call), then any prior occupant of `system_claude_home` is removed — a
symlink is unlinked, anything else that exists goes through
`shutil.rmtree` — and the symlink to `persistent_claude_data` (path
`pdPath`) is created. -/
def setupSessionPersistence (pdPath : List PyStr) (home : PathState) :
    Except WsError (Bool × PathState) :=
  if existsState home || isSymlinkState home then
    if isSymlinkState home then .ok (true, .symlinkTo pdPath)
    else
      match rmtree home with
      | .error e => .error e
      | .ok _ => .ok (true, .symlinkTo pdPath)
  else .ok (true, .symlinkTo pdPath)

/-- Counterexample to claim C3: when `system_claude_home` is a plain
non-directory file, `_setup_session_persistence` does not return
successfully — `shutil.rmtree` raises `NotADirectoryError`. -/
theorem setup_session_persistence_file_counterexample :
    setupSessionPersistence [S "workspace", S ".claude_data"] PathState.file
      = Except.error WsError.notADirectory := rfl

/-- Claim C3 amended: for a prior state absent, symlink, or non-symlink
directory, `_setup_session_persistence` returns successfully having ensured
`persistent_claude_data` exists, and afterwards `system_claude_home` is a
symlink to `persistent_claude_data`, the prior occupant destructively
replaced; for a plain non-directory file the call instead raises, because
`shutil.rmtree` rejects non-directories. -/
theorem setup_session_persistence_amended (pdPath : List PyStr) (home : PathState) :
    (home ≠ PathState.file →
      setupSessionPersistence pdPath home = .ok (true, .symlinkTo pdPath))
    ∧ (home = PathState.file →
      setupSessionPersistence pdPath home = .error .notADirectory) := by
  constructor
  · intro hf
    cases home with
    | absent => rfl
    | symlinkTo t => rfl
    | directory => rfl
    | file => exact absurd rfl hf
  · intro hf
    subst hf
    rfl

/-- Witness for claim C3 (amended): a prior directory is replaced by the
symlink; a prior plain file raises. -/
theorem setup_session_persistence_amended_witness :
    setupSessionPersistence [S "pd"] PathState.directory
      = .ok (true, .symlinkTo [S "pd"])
    ∧ setupSessionPersistence [S "pd"] PathState.file = .error .notADirectory := by
  exact ⟨(setup_session_persistence_amended [S "pd"] PathState.directory).1 (by decide),
    (setup_session_persistence_amended [S "pd"] PathState.file).2 rfl⟩

/-- State consulted by `cleanup`: `system_claude_home`, the remembered
askpass path (`_git_askpass_path`), whether that file still exists, and
whether the symlink target directory (`persistent_claude_data`) exists. -/
structure CleanupState where
  home : PathState
  gitAskpassPath : Option PyStr
  askpassFileExists : Bool
  persistentDataExists : Bool
deriving DecidableEq

/-- Model of `WorkspaceManager.cleanup`: unlink `system_claude_home` only
when it is currently a symlink (removing the link, never the target), then
best-effort deletion of the askpass script — `unlink(missing_ok=True)`
inside a catch-all handler, so a missing file is no error and `unlinkFails`
injects any other deletion error, which is swallowed — and the attribute is
reset to `None`. -/
def cleanup (s : CleanupState) (unlinkFails : Bool) : Except WsError CleanupState :=
  let s1 := if isSymlinkState s.home then { s with home := .absent } else s
  match s1.gitAskpassPath with
  | none => .ok s1
  | some _ =>
    .ok { s1 with
      gitAskpassPath := none,
      askpassFileExists := if unlinkFails then s1.askpassFileExists else false }

/-- Claim C6: `cleanup` never raises — in every state, including when
`prepare` was never called, and on a second consecutive call — it removes
`system_claude_home` only when that path is currently a symlink (never
following the link: the target directory survives), deletes the askpass
script while ignoring a missing file, and swallows any other deletion
error. -/
theorem cleanup_never_raises (s : CleanupState) (b b2 : Bool) :
    ∃ s1, cleanup s b = .ok s1
      ∧ cleanup s1 b2 = .ok s1
      ∧ s1.home = (if isSymlinkState s.home then PathState.absent else s.home)
      ∧ s1.persistentDataExists = s.persistentDataExists
      ∧ s1.gitAskpassPath = none
      ∧ (s.gitAskpassPath ≠ none → b = false → s1.askpassFileExists = false) := by
  obtain ⟨home, ap, afe, pde⟩ := s
  cases ap with
  | none =>
    cases home with
    | absent => exact ⟨_, rfl, rfl, rfl, rfl, rfl, fun h => absurd rfl h⟩
    | symlinkTo t => exact ⟨_, rfl, rfl, rfl, rfl, rfl, fun h => absurd rfl h⟩
    | directory => exact ⟨_, rfl, rfl, rfl, rfl, rfl, fun h => absurd rfl h⟩
    | file => exact ⟨_, rfl, rfl, rfl, rfl, rfl, fun h => absurd rfl h⟩
  | some p =>
    cases home with
    | absent => exact ⟨_, rfl, rfl, rfl, rfl, rfl, fun _ hb => by subst hb; rfl⟩
    | symlinkTo t => exact ⟨_, rfl, rfl, rfl, rfl, rfl, fun _ hb => by subst hb; rfl⟩
    | directory => exact ⟨_, rfl, rfl, rfl, rfl, rfl, fun _ hb => by subst hb; rfl⟩
    | file => exact ⟨_, rfl, rfl, rfl, rfl, rfl, fun _ hb => by subst hb; rfl⟩

/-- Witness for claim C6 at a concrete state: a symlinked home with a
remembered askpass path, first call with an injected deletion error, second
call without. -/
theorem cleanup_never_raises_witness :
    ∃ s1, cleanup ⟨PathState.symlinkTo [S "pd"], some (S "/tmp/ap"), true, true⟩ true
        = .ok s1
      ∧ cleanup s1 false = .ok s1
      ∧ s1.home = (if isSymlinkState (PathState.symlinkTo [S "pd"])
          then PathState.absent else PathState.symlinkTo [S "pd"])
      ∧ s1.persistentDataExists = true
      ∧ s1.gitAskpassPath = none
      ∧ (some (S "/tmp/ap") ≠ none → true = false → s1.askpassFileExists = false) :=
  cleanup_never_raises ⟨PathState.symlinkTo [S "pd"], some (S "/tmp/ap"), true, true⟩
    true false

/-- Kind of directory entry possibly occupying `repo_path/inputs`. -/
inductive EntryKind where
  | dir
  | file
  | symlink (targetExists : Bool) (target : List PyStr)
deriving DecidableEq

/-- Result of `Path.exists()` on a directory entry: follows symlinks, so a
broken symlink reports `false`. -/
def entryExists : EntryKind → Bool
  | .dir => true
  | .file => true
  | .symlink te _ => te

/-- Filesystem state consulted by `_ensure_inputs_dir`: whether
`inputs_root` exists and what occupies `repo_path/inputs`. -/
structure InputsWorld where
  inputsRootExists : Bool
  linkEntry : Option EntryKind
deriving DecidableEq

/-- Model of `_ensure_inputs_dir`.  The `mkdirFails` and `symlinkFails`
oracles inject failures of `mkdir` and `symlink_to`; both calls sit inside
catch-all handlers in the source (failures logged and swallowed), so the
result is always `ok`.  When an entry named `inputs` reports
`Path.exists()` the function returns early; for a broken symlink the
`symlink_to` call raises `FileExistsError`, which the handler also
swallows, leaving the entry untouched either way. -/
def ensureInputsDir (w : InputsWorld) (inputsRoot : List PyStr) (repoEqRoot : Bool)
    (mkdirFails symlinkFails : Bool) : Except WsError InputsWorld :=
  if mkdirFails then .ok w
  else
    let w1 : InputsWorld := { w with inputsRootExists := true }
    if repoEqRoot then .ok w1
    else
      match w1.linkEntry with
      | some e =>
        if entryExists e then .ok w1
        else .ok w1
      | none =>
        if symlinkFails then .ok w1
        else .ok { w1 with linkEntry := some (.symlink true inputsRoot) }

theorem ensureInputsDir_ok (w : InputsWorld) (root : List PyStr) (req mf sf : Bool) :
    ∃ w1, ensureInputsDir w root req mf sf = .ok w1 := by
  obtain ⟨ire, le⟩ := w
  cases mf with
  | true => exact ⟨_, rfl⟩
  | false =>
    cases req with
    | true => exact ⟨_, rfl⟩
    | false =>
      cases le with
      | none =>
        cases sf with
        | true => exact ⟨_, rfl⟩
        | false => exact ⟨_, rfl⟩
      | some e =>
        cases hee : entryExists e with
        | true => exact ⟨⟨true, some e⟩, by simp [ensureInputsDir, hee]⟩
        | false => exact ⟨⟨true, some e⟩, by simp [ensureInputsDir, hee]⟩

/-- Claim C8: `_ensure_inputs_dir` never raises — every failure is caught —
including when called twice, and it never replaces an existing `inputs`
entry (directory, file, or symlink, broken or not); the symlink to
`inputs_root` is created only when no entry exists and nothing failed. -/
theorem ensure_inputs_dir_safe (w : InputsWorld) (inputsRoot : List PyStr)
    (req mf sf mf2 sf2 : Bool) :
    ∃ w1, ensureInputsDir w inputsRoot req mf sf = .ok w1
      ∧ (∃ w2, ensureInputsDir w1 inputsRoot req mf2 sf2 = .ok w2)
      ∧ (∀ e, w.linkEntry = some e → w1.linkEntry = some e)
      ∧ (w.linkEntry = none → req = false → mf = false → sf = false →
          w1.linkEntry = some (.symlink true inputsRoot)) := by
  obtain ⟨ire, le⟩ := w
  cases mf with
  | true =>
    refine ⟨⟨ire, le⟩, rfl, ensureInputsDir_ok _ _ _ _ _, fun e he => he, ?_⟩
    intro _ _ hmf _
    exact absurd hmf (by simp)
  | false =>
    cases req with
    | true =>
      refine ⟨⟨true, le⟩, rfl, ensureInputsDir_ok _ _ _ _ _,
        fun e he => by simpa using he, ?_⟩
      intro _ hreq _ _
      exact absurd hreq (by simp)
    | false =>
      cases le with
      | some e0 =>
        cases hee : entryExists e0 with
        | true =>
          refine ⟨⟨true, some e0⟩, ?_, ensureInputsDir_ok _ _ _ _ _,
            fun e he => by simpa using he, ?_⟩
          · simp [ensureInputsDir, hee]
          · intro hn
            exact absurd hn (by simp)
        | false =>
          refine ⟨⟨true, some e0⟩, ?_, ensureInputsDir_ok _ _ _ _ _,
            fun e he => by simpa using he, ?_⟩
          · simp [ensureInputsDir, hee]
          · intro hn
            exact absurd hn (by simp)
      | none =>
        cases sf with
        | true =>
          refine ⟨⟨true, none⟩, rfl, ensureInputsDir_ok _ _ _ _ _,
            fun e he => by simp at he, ?_⟩
          intro _ _ _ hsf
          exact absurd hsf (by simp)
        | false =>
          exact ⟨⟨true, some (.symlink true inputsRoot)⟩, rfl,
            ensureInputsDir_ok _ _ _ _ _,
            fun e he => by simp at he, fun _ _ _ _ => rfl⟩

/-- Witness for claim C8: an existing plain-file `inputs` entry is left
untouched; with no entry the symlink is created. -/
theorem ensure_inputs_dir_safe_witness :
    (∃ w1, ensureInputsDir ⟨false, some EntryKind.file⟩ [S "w", S "inputs"]
          false false false = .ok w1
      ∧ (∃ w2, ensureInputsDir w1 [S "w", S "inputs"] false false false = .ok w2)
      ∧ (∀ e, (some EntryKind.file : Option EntryKind) = some e → w1.linkEntry = some e)
      ∧ ((some EntryKind.file : Option EntryKind) = none → false = false →
          false = false → false = false →
          w1.linkEntry = some (.symlink true [S "w", S "inputs"])))
    ∧ (∃ w1, ensureInputsDir ⟨false, none⟩ [S "w", S "inputs"] false false false
          = .ok w1
      ∧ (∃ w2, ensureInputsDir w1 [S "w", S "inputs"] false false false = .ok w2)
      ∧ (∀ e, (none : Option EntryKind) = some e → w1.linkEntry = some e)
      ∧ ((none : Option EntryKind) = none → false = false → false = false →
          false = false → w1.linkEntry = some (.symlink true [S "w", S "inputs"]))) :=
  ⟨ensure_inputs_dir_safe ⟨false, some EntryKind.file⟩ [S "w", S "inputs"]
      false false false false false,
    ensure_inputs_dir_safe ⟨false, none⟩ [S "w", S "inputs"]
      false false false false false⟩

/-! Embedding of `_checkout_branch`, `_ensure_cloned_repo` and
`_prepare_repository` (workspace.py lines 90 to 130 and 204 to 219). -/

/-- Git subprocess operations issued by the workspace manager, in order. -/
inductive GitOp where
  | fetch (remote branch : PyStr)
  | checkout (branch : PyStr)
  | clone (url : PyStr) (path : List PyStr) (branch : Option PyStr)
      (env : List (String × PyStr))
deriving DecidableEq

/-- Operations issued by `_checkout_branch`: nothing when the branch is
falsy (`None` or the empty string), otherwise a fetch of `origin/<branch>`
followed by a checkout, the branch string passed through unmodified. -/
def checkoutBranchOps (branch : Option PyStr) : List GitOp :=
  match branch with
  | none => []
  | some b => if b = [] then [] else [.fetch (S "origin") b, .checkout b]

/-- Model of `_ensure_cloned_repo` over the abstract on-disk state of the
derived target path (`pathExists`, `isRepo`): returns the work path and the
trace of git operations issued, or raises the path-conflict error, in which
case no git operation is performed and the directory is untouched.  The
credential environment is built first, as in the source. -/
def ensureClonedRepo (pathExists isRepo : Bool) (root : List PyStr)
    (cached : Option PyStr) (cachedExists : Bool) (freshPath : PyStr)
    (repo_url : PyStr) (branch : Option PyStr) (git_token : Option PyStr) :
    Except WsError (List PyStr × List GitOp) :=
  let repo_path := deriveRepoPath root repo_url
  let git_env := (buildGitEnv cached cachedExists freshPath repo_url git_token).env
  if pathExists && isRepo then .ok (repo_path, checkoutBranchOps branch)
  else if pathExists && !isRepo then .error (.targetNotRepo repo_path)
  else .ok (repo_path, [.clone repo_url repo_path branch git_env])

/-- Task configuration consumed by `_prepare_repository`. -/
structure TaskConfig where
  repo_url : Option PyStr
  git_branch : Option PyStr
  git_token : Option PyStr
deriving DecidableEq

/-- Token normalization of `_prepare_repository`:
`(config.git_token or "").strip() or None`. -/
def normalizedToken (t : Option PyStr) : Option PyStr :=
  if pyStrip (t.getD []) = [] then none else some (pyStrip (t.getD []))

/-- Model of `_prepare_repository`: a non-blank trimmed `repo_url`
delegates to `_ensure_cloned_repo` with the trimmed URL, the branch exactly
as configured, and the normalized token; otherwise `_ensure_git_repo`
best-effort initializes the root (`initFails` injects the caught
`init_repository` failure) and the root is returned.  The result carries
the work path, the git operations issued, and whether the root is a
repository afterwards. -/
def prepareRepository (pathExists isRepo rootIsRepo initFails : Bool)
    (root : List PyStr) (cached : Option PyStr) (cachedExists : Bool)
    (freshPath : PyStr) (config : TaskConfig) :
    Except WsError (List PyStr × List GitOp × Bool) :=
  if pyStrip (config.repo_url.getD []) ≠ [] then
    match ensureClonedRepo pathExists isRepo root cached cachedExists freshPath
        (pyStrip (config.repo_url.getD [])) config.git_branch
        (normalizedToken config.git_token) with
    | .error e => .error e
    | .ok (p, ops) => .ok (p, ops, rootIsRepo)
  else
    .ok (root, [], if rootIsRepo then true else (if initFails then false else true))

/-- Claim C2: the three-case state machine of `_ensure_cloned_repo`: an
existing valid repository gets a fetch of `origin/<branch>` then a checkout
(both skipped when no branch is requested) and clone is never invoked; an
existing non-repository raises the `target path exists but is not a git
repository` error with no git operation issued; an absent path gets a clone
with the URL, the derived path, the branch and the credential-scoped
environment. -/
theorem ensure_cloned_repo_state_machine (pathExists isRepo : Bool)
    (root : List PyStr) (cached : Option PyStr) (cachedExists : Bool)
    (freshPath repo_url : PyStr) (branch git_token : Option PyStr) :
    (pathExists = true → isRepo = true →
      ensureClonedRepo pathExists isRepo root cached cachedExists freshPath
          repo_url branch git_token
        = .ok (deriveRepoPath root repo_url, checkoutBranchOps branch)
      ∧ (∀ u p b e, GitOp.clone u p b e ∉ checkoutBranchOps branch)
      ∧ (branch = none → checkoutBranchOps branch = [])
      ∧ (∀ b, branch = some b → b ≠ [] →
          checkoutBranchOps branch = [.fetch (S "origin") b, .checkout b]))
    ∧ (pathExists = true → isRepo = false →
      ensureClonedRepo pathExists isRepo root cached cachedExists freshPath
          repo_url branch git_token
        = .error (.targetNotRepo (deriveRepoPath root repo_url)))
    ∧ (pathExists = false →
      ensureClonedRepo pathExists isRepo root cached cachedExists freshPath
          repo_url branch git_token
        = .ok (deriveRepoPath root repo_url,
            [.clone repo_url (deriveRepoPath root repo_url) branch
              (buildGitEnv cached cachedExists freshPath repo_url git_token).env])) := by
  refine ⟨?_, ?_, ?_⟩
  · rintro rfl rfl
    refine ⟨rfl, ?_, ?_, ?_⟩
    · intro u p b e
      cases branch with
      | none => simp [checkoutBranchOps]
      | some b0 =>
        by_cases hb : b0 = []
        · simp [checkoutBranchOps, hb]
        · simp [checkoutBranchOps, hb]
    · rintro rfl
      rfl
    · rintro b rfl hb
      simp [checkoutBranchOps, hb]
  · rintro rfl rfl
    rfl
  · rintro rfl
    cases isRepo with
    | true => rfl
    | false => rfl

/-- Witness for claim C2: the three cases at the concrete URL
`https://github.com/acme/demo.git` on root `workspace`. -/
theorem ensure_cloned_repo_state_machine_witness :
    (ensureClonedRepo true true [S "workspace"] none false (S "/tmp/ap")
        (S "https://github.com/acme/demo.git") (some (S "main")) none
      = .ok (deriveRepoPath [S "workspace"] (S "https://github.com/acme/demo.git"),
          checkoutBranchOps (some (S "main"))))
    ∧ (ensureClonedRepo true false [S "workspace"] none false (S "/tmp/ap")
        (S "https://github.com/acme/demo.git") (some (S "main")) none
      = .error (.targetNotRepo
          (deriveRepoPath [S "workspace"] (S "https://github.com/acme/demo.git"))))
    ∧ (ensureClonedRepo false true [S "workspace"] none false (S "/tmp/ap")
        (S "https://github.com/acme/demo.git") (some (S "main")) none
      = .ok (deriveRepoPath [S "workspace"] (S "https://github.com/acme/demo.git"),
          [.clone (S "https://github.com/acme/demo.git")
            (deriveRepoPath [S "workspace"] (S "https://github.com/acme/demo.git"))
            (some (S "main"))
            (buildGitEnv none false (S "/tmp/ap")
              (S "https://github.com/acme/demo.git") none).env])) :=
  ⟨((ensure_cloned_repo_state_machine true true [S "workspace"] none false
      (S "/tmp/ap") (S "https://github.com/acme/demo.git") (some (S "main")) none).1
      rfl rfl).1,
    (ensure_cloned_repo_state_machine true false [S "workspace"] none false
      (S "/tmp/ap") (S "https://github.com/acme/demo.git") (some (S "main")) none).2.1
      rfl rfl,
    (ensure_cloned_repo_state_machine false true [S "workspace"] none false
      (S "/tmp/ap") (S "https://github.com/acme/demo.git") (some (S "main")) none).2.2
      rfl⟩

/-- Claim C10: an empty-string `git_branch` is treated as not requested —
`_checkout_branch` returns immediately, issuing neither fetch nor
checkout — while a whitespace-only branch such as a single space is passed
through to fetch and checkout unmodified; the branch, unlike `repo_url`
and `git_token`, is never trimmed on the way from the configuration to
`_ensure_cloned_repo`. -/
theorem git_branch_empty_vs_whitespace :
    checkoutBranchOps (some []) = []
    ∧ checkoutBranchOps none = []
    ∧ checkoutBranchOps (some (S " ")) = [.fetch (S "origin") (S " "), .checkout (S " ")]
    ∧ (∀ (root : List PyStr) (cached : Option PyStr) (cachedExists : Bool)
        (freshPath url : PyStr) (tok : Option PyStr),
        ensureClonedRepo true true root cached cachedExists freshPath url
            (some []) tok = .ok (deriveRepoPath root url, [])
        ∧ ensureClonedRepo true true root cached cachedExists freshPath url
            (some (S " ")) tok
          = .ok (deriveRepoPath root url,
              [.fetch (S "origin") (S " "), .checkout (S " ")]))
    ∧ (∀ (pe ir rr ifl : Bool) (root : List PyStr) (cached : Option PyStr)
        (ce : Bool) (fp : PyStr) (cfg : TaskConfig),
        pyStrip (cfg.repo_url.getD []) ≠ [] →
        prepareRepository pe ir rr ifl root cached ce fp cfg
          = match ensureClonedRepo pe ir root cached ce fp
              (pyStrip (cfg.repo_url.getD [])) cfg.git_branch
              (normalizedToken cfg.git_token) with
            | .error e => .error e
            | .ok (p, ops) => .ok (p, ops, rr)) := by
  refine ⟨rfl, rfl, rfl, ?_, ?_⟩
  · intro root cached cachedExists freshPath url tok
    exact ⟨rfl, rfl⟩
  · intro pe ir rr ifl root cached ce fp cfg h
    unfold prepareRepository
    rw [if_pos h]

/-- Witness for claim C10: the pass-through equation at a configuration
whose URL and token carry surrounding whitespace and whose branch is a
single space. -/
theorem git_branch_empty_vs_whitespace_witness :
    ensureClonedRepo true true [S "w"] none false (S "/tmp/ap") (S "u") (some []) none
      = .ok (deriveRepoPath [S "w"] (S "u"), [])
    ∧ (prepareRepository true true true false [S "w"] none false (S "/tmp/ap")
        ⟨some (S " https://github.com/a/b "), some (S " "), some (S " tk ")⟩
      = match ensureClonedRepo true true [S "w"] none false (S "/tmp/ap")
          (pyStrip ((some (S " https://github.com/a/b ") : Option PyStr).getD []))
          (some (S " ")) (normalizedToken (some (S " tk "))) with
        | .error e => .error e
        | .ok (p, ops) => .ok (p, ops, true)) :=
  ⟨(git_branch_empty_vs_whitespace.2.2.2.1 [S "w"] none false (S "/tmp/ap")
      (S "u") none).1,
    git_branch_empty_vs_whitespace.2.2.2.2 true true true false [S "w"] none false
      (S "/tmp/ap") ⟨some (S " https://github.com/a/b "), some (S " "), some (S " tk ")⟩
      (by decide)⟩

/-! Embedding of `WorkspaceManager.prepare` (workspace.py lines 58 to 65). -/

/-- The four phases of `prepare`, named after the methods invoked. -/
inductive Phase where
  | setupSessionPersistence
  | prepareRepository
  | ensureInputsDir
  | ensureGitExcludes
deriving DecidableEq

/-- World state threaded through one `prepare` run. -/
structure World where
  home : PathState
  repoPathExists : Bool
  repoPathIsRepo : Bool
  rootIsRepo : Bool
  initFails : Bool
  inputs : InputsWorld
  inputsMkdirFails : Bool
  inputsSymlinkFails : Bool
  excludeFile : Option PyStr
  gitIgnoreExtra : PyStr
deriving DecidableEq

/-- Outcome of a successful `prepare` run. -/
structure PrepareResult where
  homeAfter : PathState
  workPath : List PyStr
  gitOps : List GitOp
  inputsAfter : InputsWorld
  excludeAfter : Option PyStr
deriving DecidableEq

/-- Model of `WorkspaceManager.prepare`: the four phases run synchronously
in source order — persistence linker, repository resolver, inputs linker,
exclude maintainer — each recorded in the returned trace when invoked; an
exception aborts the remaining phases.  `pdPath` is
`persistent_claude_data`, `root` is `root_path`; the work path is a strict
child of the root exactly in repository mode, so the exclude maintainer
sees the root repository flag when the work path is the root and a valid
checkout otherwise. -/
def prepare (w : World) (pdPath root : List PyStr) (cached : Option PyStr)
    (cachedExists : Bool) (freshPath : PyStr) (config : TaskConfig) :
    List Phase × Except WsError PrepareResult :=
  match setupSessionPersistence pdPath w.home with
  | .error e => ([.setupSessionPersistence], .error e)
  | .ok (_, homeAfter) =>
    match prepareRepository w.repoPathExists w.repoPathIsRepo w.rootIsRepo
        w.initFails root cached cachedExists freshPath config with
    | .error e => ([.setupSessionPersistence, .prepareRepository], .error e)
    | .ok (workPath, ops, rootIsRepoAfter) =>
      match ensureInputsDir w.inputs (root ++ [S "inputs"])
          (decide (workPath = root)) w.inputsMkdirFails w.inputsSymlinkFails with
      | .error e =>
        ([.setupSessionPersistence, .prepareRepository, .ensureInputsDir], .error e)
      | .ok inputsAfter =>
        ([.setupSessionPersistence, .prepareRepository, .ensureInputsDir,
            .ensureGitExcludes],
          .ok ⟨homeAfter, workPath, ops, inputsAfter,
            ensureGitExcludes
              (if workPath = root then rootIsRepoAfter else true)
              w.gitIgnoreExtra w.excludeFile⟩)

/-- Counterexample to claim C9: a successful `prepare` run on an empty
mount invokes the inputs-directory linker before the exclude-file
maintainer, not after it as the claimed sequence 1, 2, 5, 6 states. -/
theorem prepare_order_counterexample :
    (prepare ⟨PathState.absent, false, false, false, false, ⟨false, none⟩, false,
          false, none, []⟩ [S "pd"] [S "w"] none false (S "/tmp/ap")
        ⟨none, none, none⟩).1
      ≠ [Phase.setupSessionPersistence, Phase.prepareRepository,
         Phase.ensureGitExcludes, Phase.ensureInputsDir]
    ∧ (prepare ⟨PathState.absent, false, false, false, false, ⟨false, none⟩, false,
          false, none, []⟩ [S "pd"] [S "w"] none false (S "/tmp/ap")
        ⟨none, none, none⟩).1
      = [Phase.setupSessionPersistence, Phase.prepareRepository,
         Phase.ensureInputsDir, Phase.ensureGitExcludes]
    ∧ (prepare ⟨PathState.absent, false, false, false, false, ⟨false, none⟩, false,
          false, none, []⟩ [S "pd"] [S "w"] none false (S "/tmp/ap")
        ⟨none, none, none⟩).2.isOk = true := by
  refine ⟨by decide, rfl, rfl⟩

/-- Claim C9 amended: `prepare(config)` runs its phases synchronously and
in sequence, but in the source order persistence linker (step 1),
repository resolver (step 2), inputs-directory linker (step 6), and
exclude-file maintainer (step 5) last: on success the phase trace is
exactly that sequence. -/
theorem prepare_order_amended (w : World) (pdPath root : List PyStr)
    (cached : Option PyStr) (cachedExists : Bool) (freshPath : PyStr)
    (config : TaskConfig) (r : PrepareResult)
    (h : (prepare w pdPath root cached cachedExists freshPath config).2 = .ok r) :
    (prepare w pdPath root cached cachedExists freshPath config).1
      = [Phase.setupSessionPersistence, Phase.prepareRepository,
         Phase.ensureInputsDir, Phase.ensureGitExcludes] := by
  unfold prepare at h ⊢
  cases hs : setupSessionPersistence pdPath w.home with
  | error e =>
    rw [hs] at h
    simp at h
  | ok v =>
    obtain ⟨pd, homeAfter⟩ := v
    cases hp : prepareRepository w.repoPathExists w.repoPathIsRepo w.rootIsRepo
        w.initFails root cached cachedExists freshPath config with
    | error e =>
      rw [hs, hp] at h
      simp at h
    | ok v2 =>
      obtain ⟨workPath, ops, rira⟩ := v2
      cases hi : ensureInputsDir w.inputs (root ++ [S "inputs"])
          (decide (workPath = root)) w.inputsMkdirFails w.inputsSymlinkFails with
      | error e =>
        rw [hs, hp] at h
        simp [hi] at h
      | ok ia => simp [hi]

/-- Witness for claim C9 (amended): the phase trace of a concrete
successful run. -/
theorem prepare_order_amended_witness :
    (prepare ⟨PathState.absent, false, false, false, false, ⟨false, none⟩, false,
          false, none, []⟩ [S "pd"] [S "w"] none false (S "/tmp/ap")
        ⟨none, none, none⟩).1
      = [Phase.setupSessionPersistence, Phase.prepareRepository,
         Phase.ensureInputsDir, Phase.ensureGitExcludes] :=
  prepare_order_amended ⟨PathState.absent, false, false, false, false,
      ⟨false, none⟩, false, false, none, []⟩ [S "pd"] [S "w"] none false
    (S "/tmp/ap") ⟨none, none, none⟩ _ rfl
